import Mathlib

/-!
Shallow embedding of the room-assignment engine of the TBO repository
(`src/app/events/[eventId]/room-mapping/page.tsx`) and of the family
grouping of the guest-management view
(`src/src/app/events/[eventId]/manage-guests/page.tsx`).

The engine state is the pair of React state variables `unassignedGuests`
and `rooms`; the handlers `handleDropToRoom`, `handleDropToUnassigned`,
`handleAutoAssign` and `handleReset` are translated into pure functions
on that state.  The transient `warning` string is modelled structurally
as the triple of data interpolated into it, and the `draggedGuest`
indicator is passed as explicit arguments (the dragged guest and its
source location).
-/

/-- A guest of the room-mapping view: `interface Guest { id; name; occupancy }`. -/
structure Guest where
  id : String
  name : String
  occupancy : Nat
deriving DecidableEq

/-- A room: `interface Room { id; hotel; type; capacity; assigned }`. -/
structure Room where
  id : String
  hotel : String
  type : String
  capacity : Nat
  assigned : List Guest
deriving DecidableEq

/-- The two React state collections of the room-mapping page. -/
structure EngineState where
  unassignedGuests : List Guest
  rooms : List Room
deriving DecidableEq

/-- Where a dragged guest comes from: `source: 'unassigned' | string`
(the string being a room id), as recorded by `handleDragStart`. -/
inductive Source where
  | unassigned : Source
  | room (roomId : String) : Source
deriving DecidableEq

/-- Translation of `room.assigned.reduce((sum, g) => sum + g.occupancy, 0)`. -/
def occupancySum (gs : List Guest) : Nat :=
  gs.foldl (fun sum g => sum + g.occupancy) 0

/-- The data interpolated into the capacity-violation warning string set
by `handleDropToRoom`: guest name, room type, room capacity. -/
structure CapacityWarning where
  guestName : String
  roomType : String
  roomCapacity : Nat
deriving DecidableEq

/-- The warning message built by `handleDropToRoom` on a capacity violation. -/
def warningMessage (w : CapacityWarning) : String :=
  "⚠️ Cannot assign " ++ w.guestName ++ " to " ++ w.roomType ++
    ". Room capacity (" ++ toString w.roomCapacity ++ ") would be exceeded."

/-- Result of a drop handler: the new state plus the warning it set
(`none` models `setWarning(null)`). -/
structure DropResult where
  state : EngineState
  warning : Option CapacityWarning
deriving DecidableEq

/-- The source-removal step of `handleDropToRoom`: when the drag started
from a room, rewrite the first room whose id matches the source, filtering
the dragged guest's id out of its assigned list (`if (sourceRoomIndex !==
-1)` guards the not-found case); when the drag started from the
unassigned pool, the rooms are untouched. -/
def roomsAfterSourceRemoval (rooms : List Room) (guest : Guest) (source : Source) :
    List Room :=
  match source with
  | Source.unassigned => rooms
  | Source.room sourceId =>
    match rooms.findIdx? (fun r => r.id == sourceId) with
    | none => rooms
    | some sourceRoomIndex =>
      match rooms[sourceRoomIndex]? with
      | none => rooms
      | some sourceRoom =>
        rooms.set sourceRoomIndex
          { sourceRoom with
            assigned := sourceRoom.assigned.filter (fun g => g.id != guest.id) }

/-- The pool side of the source-removal step of `handleDropToRoom`:
`setUnassignedGuests(prev => prev.filter(g => g.id !== guest.id))` when
the drag started from the pool, otherwise the pool is untouched. -/
def poolAfterSourceRemoval (pool : List Guest) (guest : Guest) (source : Source) :
    List Guest :=
  match source with
  | Source.unassigned => pool.filter (fun g => g.id != guest.id)
  | Source.room _ => pool

/-- Translation of `handleDropToRoom(targetRoomId)`, with the dragged guest and its source
passed explicitly.  Returns `none` when `rooms.findIndex` yields `-1`
(the JS code would then dereference `undefined` — callers must not pass a
stale room id).  Mirrors the source statement by statement, including the
final write `newRooms[targetRoomIndex] = { ...targetRoom, assigned:
[...targetRoom.assigned, guest] }`, which reads the room captured
*before* the source-removal step. -/
def handleDropToRoom (s : EngineState) (guest : Guest) (source : Source)
    (targetRoomId : String) : Option DropResult :=
  match s.rooms.findIdx? (fun r => r.id == targetRoomId) with
  | none => none
  | some targetRoomIndex =>
    match s.rooms[targetRoomIndex]? with
    | none => none
    | some targetRoom =>
      let currentOccupancy := occupancySum targetRoom.assigned
      if currentOccupancy + guest.occupancy > targetRoom.capacity then
        some ⟨s, some ⟨guest.name, targetRoom.type, targetRoom.capacity⟩⟩
      else
        let rooms1 := roomsAfterSourceRemoval s.rooms guest source
        let unassigned1 := poolAfterSourceRemoval s.unassignedGuests guest source
        let rooms2 := rooms1.set targetRoomIndex
          { targetRoom with assigned := targetRoom.assigned ++ [guest] }
        some ⟨⟨unassigned1, rooms2⟩, none⟩

/-- Translation of `handleDropToUnassigned()`, with the dragged guest and its source passed
explicitly.  If the source is already `'unassigned'` nothing changes;
otherwise the guest is filtered (by id) out of every room whose id equals
the source and appended to the unassigned pool. -/
def handleDropToUnassigned (s : EngineState) (guest : Guest) (source : Source) :
    EngineState :=
  match source with
  | Source.unassigned => s
  | Source.room sourceId =>
    { unassignedGuests := s.unassignedGuests ++ [guest],
      rooms := s.rooms.map (fun room =>
        if room.id == sourceId then
          { room with assigned := room.assigned.filter (fun g => g.id != guest.id) }
        else room) }

/-- The inner scan of `handleAutoAssign`: walk the remaining guests in
order with a mutable `roomSpace`; a guest fitting the current space goes
to `guestsToAdd` and shrinks the space, otherwise to `nextRemaining`.
Returns the final space together with the two lists. -/
def fitGuests : Nat → List Guest → Nat × List Guest × List Guest
  | roomSpace, [] => (roomSpace, [], [])
  | roomSpace, g :: gs =>
    if g.occupancy ≤ roomSpace then
      let r := fitGuests (roomSpace - g.occupancy) gs
      (r.1, g :: r.2.1, r.2.2)
    else
      let r := fitGuests roomSpace gs
      (r.1, r.2.1, g :: r.2.2)

/-- One iteration of the `newRooms.forEach` loop of `handleAutoAssign`:
skip the room when it has no free space, otherwise fill it greedily from
the remaining guests (the room object is only rewritten when at least one
guest was added, as in the source). -/
def autoAssignRoom (room : Room) (remaining : List Guest) : Room × List Guest :=
  let currentOccupancy := occupancySum room.assigned
  let roomSpace := room.capacity - currentOccupancy
  if roomSpace > 0 then
    let r := fitGuests roomSpace remaining
    let guestsToAdd := r.2.1
    let nextRemaining := r.2.2
    (if guestsToAdd.length > 0 then
      { room with assigned := room.assigned ++ guestsToAdd }
     else room,
     nextRemaining)
  else (room, remaining)

/-- The `forEach` loop of `handleAutoAssign`: rooms are visited once, in
list order, threading the shrinking pool of remaining guests. -/
def autoAssignRooms : List Room → List Guest → List Room × List Guest
  | [], remaining => ([], remaining)
  | room :: rs, remaining =>
    let p := autoAssignRoom room remaining
    let q := autoAssignRooms rs p.2
    (p.1 :: q.1, q.2)

/-- Translation of `handleAutoAssign()`. -/
def handleAutoAssign (s : EngineState) : EngineState :=
  let p := autoAssignRooms s.rooms s.unassignedGuests
  { unassignedGuests := p.2, rooms := p.1 }

/-- Translation of `handleReset()`: push every room's assigned guests onto a copy of the
unassigned pool, clear every room. -/
def handleReset (s : EngineState) : EngineState :=
  { unassignedGuests := s.rooms.foldl (fun acc room => acc ++ room.assigned) s.unassignedGuests,
    rooms := s.rooms.map (fun room => { room with assigned := [] }) }

/-- One engine operation, for stating properties of call sequences. -/
inductive Op where
  | assign (guest : Guest) (source : Source) (targetRoomId : String) : Op
  | unassign (guest : Guest) (source : Source) : Op
  | autoAssign : Op
  | reset : Op

/-- Apply one operation; `none` models the JS crash of `assign` on an
unknown target room id. -/
def applyOp (s : EngineState) : Op → Option EngineState
  | Op.assign guest source targetRoomId =>
    (handleDropToRoom s guest source targetRoomId).map DropResult.state
  | Op.unassign guest source => some (handleDropToUnassigned s guest source)
  | Op.autoAssign => some (handleAutoAssign s)
  | Op.reset => some (handleReset s)

/-- Run a sequence of operations. -/
def runOps (s : EngineState) : List Op → Option EngineState
  | [] => some s
  | op :: ops =>
    match applyOp s op with
    | some s2 => runOps s2 ops
    | none => none

/-- The capacity invariant: every room's assigned occupancy fits its capacity. -/
def CapInv (s : EngineState) : Prop :=
  ∀ r ∈ s.rooms, occupancySum r.assigned ≤ r.capacity

instance : DecidablePred CapInv := fun s =>
  inferInstanceAs (Decidable (∀ r ∈ s.rooms, occupancySum r.assigned ≤ r.capacity))

/-- All guest ids across the unassigned pool and every room's assigned
list, in order — the conserved multiset of the spec. -/
def allGuestIds (s : EngineState) : List String :=
  s.unassignedGuests.map Guest.id ++
    (s.rooms.map (fun r => r.assigned.map Guest.id)).flatten

/-- The id/hotel/type/capacity part of a room — everything except the
assigned list. -/
def roomFrame (r : Room) : String × String × String × Nat :=
  (r.id, r.hotel, r.type, r.capacity)

/-- The demo guest `{ id: '1', name: 'Rajesh Kumar' }` with occupancy 1
(the failing input for the self-drop duplication). -/
def bugGuest : Guest := ⟨"1", "Rajesh Kumar", 1⟩

/-- A state in which `bugGuest` is already assigned to room `r1`
(capacity 2, occupancy 1, so the capacity check passes). -/
def bugState : EngineState :=
  ⟨[], [⟨"r1", "The Grand Palace", "Deluxe Room", 2, [bugGuest]⟩]⟩

/-- A state with one assigned and one unassigned guest, used to
instantiate `reset_spec`. -/
def resetWState : EngineState :=
  ⟨[⟨"2", "Priya Sharma", 1⟩],
    [⟨"r1", "The Grand Palace", "Deluxe Room", 2, [⟨"1", "Rajesh Kumar", 2⟩]⟩]⟩

/-- The room of `resetWState` after the reset. -/
def resetWRoom : Room := ⟨"r1", "The Grand Palace", "Deluxe Room", 2, []⟩

/-- The state of Scenario 1 after the first, successful drop: the
capacity-2 room holds one guest of occupancy 1. -/
def scn1State : EngineState :=
  ⟨[⟨"2", "Priya Sharma", 2⟩],
    [⟨"r1", "The Grand Palace", "Deluxe Room", 2, [⟨"1", "Rajesh Kumar", 1⟩]⟩]⟩

/-- The second guest of Scenario 1 (occupancy 2, does not fit: 1 + 2 > 2). -/
def scn1Guest : Guest := ⟨"2", "Priya Sharma", 2⟩

/-- The rejected drop's result: unchanged state plus the warning data. -/
def scn1Res : DropResult := ⟨scn1State, some ⟨"Priya Sharma", "Deluxe Room", 2⟩⟩

/-- The dragged guest of the `unassign_spec` witness. -/
def unWGuest : Guest := ⟨"1", "Rajesh Kumar", 2⟩

/-- A capacity-3 room holding the witness guest and one other. -/
def unWRoom : Room :=
  ⟨"r1", "The Grand Palace", "Deluxe Room", 3, [unWGuest, ⟨"2", "Priya Sharma", 1⟩]⟩

/-- A state whose single room is `unWRoom`. -/
def unWState : EngineState := ⟨[], [unWRoom]⟩

/-- Scenario 2's guests: A(occupancy 2), B(occupancy 1), C(occupancy 3). -/
def guestA : Guest := ⟨"A", "Guest A", 2⟩

def guestB : Guest := ⟨"B", "Guest B", 1⟩

def guestC : Guest := ⟨"C", "Guest C", 3⟩

/-- Scenario 2's initial state: pool [A, B, C], empty rooms R1(capacity 2)
and R2(capacity 3). -/
def scn2State : EngineState :=
  ⟨[guestA, guestB, guestC],
    [⟨"r1", "The Grand Palace", "R1", 2, []⟩, ⟨"r2", "The Grand Palace", "R2", 3, []⟩]⟩

/-- The result of Scenario 2's auto-assign: R1 holds A, R2 holds B, C
stays unassigned. -/
def scn2Result : EngineState :=
  ⟨[guestC],
    [⟨"r1", "The Grand Palace", "R1", 2, [guestA]⟩,
      ⟨"r2", "The Grand Palace", "R2", 3, [guestB]⟩]⟩

/-- One step of the spec's scan, following the spec's words: "Scan the
remaining unassigned guests in their existing order; a guest is added to
the room if `guest.occupancy <= roomSpace`, after which `roomSpace -=
guest.occupancy` and the guest is removed from the remaining pool; guests
that do not fit are carried forward".  The accumulator is (current
roomSpace, guests added so far, guests carried forward so far). -/
def specFitStep (acc : Nat × List Guest × List Guest) (g : Guest) :
    Nat × List Guest × List Guest :=
  if g.occupancy ≤ acc.1 then (acc.1 - g.occupancy, acc.2.1 ++ [g], acc.2.2)
  else (acc.1, acc.2.1, acc.2.2 ++ [g])

/-- One room of the spec's loop, following the spec's words: "For each
room in order: compute `roomSpace = capacity - currentOccupancy`", then
scan the remaining guests; the room receives the guests that fit, the
rest are carried to the next room. -/
def specRoomStep (acc : List Room × List Guest) (room : Room) :
    List Room × List Guest :=
  let roomSpace := room.capacity - occupancySum room.assigned
  let scan := acc.2.foldl specFitStep (roomSpace, [], [])
  (acc.1 ++ [{ room with assigned := room.assigned ++ scan.2.1 }], scan.2.2)

/-- The spec's description of `autoAssign` as a single left-to-right pass
over the rooms (rooms are never revisited), to be compared with the
source-translated `handleAutoAssign`. -/
def specAutoAssign (s : EngineState) : EngineState :=
  let p := s.rooms.foldl specRoomStep ([], s.unassignedGuests)
  ⟨p.2, p.1⟩

/-- Category of a guest in the guest-management view; the source field is
named `Type` (`'adult' | 'child'`), spelled `category` here because
`Type` is reserved in Lean. -/
inductive GuestCategory where
  | adult : GuestCategory
  | child : GuestCategory
deriving DecidableEq

/-- Guest record fetched by the guest-management view (`interface Guest`
of `manage-guests/page.tsx`). -/
structure GGuest where
  ID : String
  Name : String
  Age : Nat
  category : GuestCategory
  Phone : String
  Email : String
  EventID : String
  FamilyID : String
  ArrivalDate : String
  DepartureDate : String
deriving DecidableEq

/-- Translation of `const key = guest.FamilyID || guest.ID`: the guest's own id is the
key exactly when the family id is absent (the empty string is the only
falsy string value). -/
def guestKey (g : GGuest) : String :=
  if g.FamilyID = "" then g.ID else g.FamilyID

/-- One step of the `guests.reduce(...)` accumulation building
`groupedGuests`, with the JS record modelled as an insertion-ordered
association list: a new key is appended with a singleton group, an
existing key has the guest pushed onto its group. -/
def insertGrouped (acc : List (String × List GGuest)) (g : GGuest) :
    List (String × List GGuest) :=
  if acc.any (fun p => p.1 == guestKey g) then
    acc.map (fun p => if p.1 == guestKey g then (p.1, p.2 ++ [g]) else p)
  else acc ++ [(guestKey g, [g])]

/-- Translation of `guests.reduce(...)`: group the fetched guests by family key. -/
def groupedGuests (guests : List GGuest) : List (String × List GGuest) :=
  guests.foldl insertGrouped []

/-- Translation of `Object.values(groupedGuests)`. -/
def guestGroups (guests : List GGuest) : List (List GGuest) :=
  (groupedGuests guests).map Prod.snd

/-- Translation of `const headGuest = group[0]`. -/
def headGuest (group : List GGuest) : Option GGuest := group.head?

/-- Translation of `const otherMembers = group.slice(1)`. -/
def otherMembers (group : List GGuest) : List GGuest := group.drop 1

/-- Invariant of the grouping fold: after processing `processed`, the
accumulator has pairwise-distinct keys, each group is exactly the
processed guests with that key in fetch order, every processed guest's
key is present, and no group is empty. -/
def GroupInv (processed : List GGuest) (acc : List (String × List GGuest)) : Prop :=
  (acc.map Prod.fst).Nodup ∧
  (∀ p ∈ acc, p.2 = processed.filter (fun g => guestKey g == p.1)) ∧
  (∀ g ∈ processed, guestKey g ∈ acc.map Prod.fst) ∧
  (∀ p ∈ acc, p.2 ≠ [])

/-- A minimal fetched guest with the given id and family id. -/
def famGuest (theId famId : String) : GGuest :=
  ⟨theId, "", 0, GuestCategory.adult, "", "", "", famId, "", ""⟩

/-- Three fetched guests: two of family "F" and one solo (no family id). -/
def c9Guests : List GGuest := [famGuest "1" "F", famGuest "2" "", famGuest "3" "F"]

theorem occupancySum_foldl (gs : List Guest) : ∀ n : Nat,
    gs.foldl (fun sum g => sum + g.occupancy) n = n + (gs.map Guest.occupancy).sum := by
  induction gs with
  | nil => intro n; simp
  | cons g gs ih => intro n; simp [ih, Nat.add_assoc]

theorem occupancySum_eq_sum (gs : List Guest) :
    occupancySum gs = (gs.map Guest.occupancy).sum := by
  simpa [occupancySum] using occupancySum_foldl gs 0

theorem occupancySum_cons (g : Guest) (gs : List Guest) :
    occupancySum (g :: gs) = g.occupancy + occupancySum gs := by
  simp [occupancySum_eq_sum]

theorem occupancySum_append (a b : List Guest) :
    occupancySum (a ++ b) = occupancySum a + occupancySum b := by
  simp [occupancySum_eq_sum]

theorem occupancySum_filter_le (p : Guest → Bool) (gs : List Guest) :
    occupancySum (gs.filter p) ≤ occupancySum gs := by
  induction gs with
  | nil => simp
  | cons g gs ih =>
    by_cases h : p g <;> simp [List.filter_cons, h, occupancySum_cons] <;> omega

theorem foldl_append_assigned (rs : List Room) : ∀ init : List Guest,
    rs.foldl (fun acc room => acc ++ room.assigned) init =
      init ++ (rs.map Room.assigned).flatten := by
  induction rs with
  | nil => intro init; simp
  | cons r rs ih => intro init; simp [ih]

/-- C1: conservation fails.  Dropping a guest onto the room it already
occupies passes the capacity check (1 + 1 ≤ 2), and the final write uses
the room object captured before the source-removal step, so the guest
ends up twice in the room's assigned list: the conserved multiset of
guest ids grows from one occurrence of "1" to two, and the guest no
longer occurs in exactly one location. -/
theorem assign_self_target_duplicates_guest :
    handleDropToRoom bugState bugGuest (Source.room "r1") "r1" =
      some ⟨⟨[], [⟨"r1", "The Grand Palace", "Deluxe Room", 2, [bugGuest, bugGuest]⟩]⟩, none⟩ ∧
    allGuestIds bugState = ["1"] ∧
    allGuestIds ⟨[], [⟨"r1", "The Grand Palace", "Deluxe Room", 2, [bugGuest, bugGuest]⟩]⟩ =
      ["1", "1"] := by
  decide

/-- C7: after `handleReset` every room's assigned list is empty and the
unassigned pool is a permutation (in fact, here, an ordered equal) of the
old pool together with all rooms' old assigned lists. -/
theorem reset_spec (s : EngineState) :
    (∀ r ∈ (handleReset s).rooms, r.assigned = []) ∧
    (handleReset s).unassignedGuests.Perm
      (s.unassignedGuests ++ (s.rooms.map Room.assigned).flatten) := by
  constructor
  · intro r hr
    simp only [handleReset, List.mem_map] at hr
    obtain ⟨r0, _, rfl⟩ := hr
    rfl
  · show (s.rooms.foldl (fun acc room => acc ++ room.assigned) s.unassignedGuests).Perm _
    rw [foldl_append_assigned]

/-- Witness for `reset_spec` at a concrete state. -/
theorem reset_spec_witness :
    resetWRoom.assigned = [] ∧
    (handleReset resetWState).unassignedGuests.Perm
      (resetWState.unassignedGuests ++ (resetWState.rooms.map Room.assigned).flatten) :=
  ⟨(reset_spec resetWState).1 resetWRoom (by decide), (reset_spec resetWState).2⟩

/-- C4: a drop that raises the capacity warning leaves the state exactly
as it was — both collections untouched. -/
theorem assign_failure_noop (s : EngineState) (g : Guest) (src : Source) (tgt : String)
    (res : DropResult) (h : handleDropToRoom s g src tgt = some res)
    (hw : res.warning.isSome) : res.state = s := by
  unfold handleDropToRoom at h
  split at h
  next => exact absurd h (by simp)
  next =>
    split at h
    next => exact absurd h (by simp)
    next =>
      simp only [] at h
      split at h
      next =>
        obtain rfl := Option.some.inj h
        rfl
      next =>
        obtain rfl := Option.some.inj h
        exact absurd hw (by simp)

/-- Witness for `assign_failure_noop` at Scenario 1's failing drop. -/
theorem assign_failure_noop_witness : scn1Res.state = scn1State :=
  assign_failure_noop scn1State scn1Guest Source.unassigned "r1" scn1Res
    (by decide) (by decide)

/-- C5: with the target room resolved, the drop fails exactly when
`currentOccupancy + guest.occupancy > capacity`; on failure the warning
carries the guest's name, the room's type and the room's capacity and the
state is unchanged, and otherwise the drop succeeds with no warning. -/
theorem assign_failure_condition (s : EngineState) (g : Guest) (src : Source)
    (tgt : String) (i : Nat) (r : Room)
    (hi : s.rooms.findIdx? (fun x => x.id == tgt) = some i)
    (hr : s.rooms[i]? = some r) :
    (occupancySum r.assigned + g.occupancy > r.capacity →
      handleDropToRoom s g src tgt = some ⟨s, some ⟨g.name, r.type, r.capacity⟩⟩) ∧
    (occupancySum r.assigned + g.occupancy ≤ r.capacity →
      ∃ s2, handleDropToRoom s g src tgt = some ⟨s2, none⟩) := by
  constructor
  · intro hgt
    simp only [handleDropToRoom, hi, hr]
    rw [if_pos hgt]
  · intro hle
    simp only [handleDropToRoom, hi, hr]
    rw [if_neg (by omega)]
    exact ⟨_, rfl⟩

/-- Witness for `assign_failure_condition`: Scenario 1 — the first drop
into the empty capacity-2 room succeeds with occupancy 1 (checked by
evaluation), and the theorem applied to the resulting state yields the
failure of the second drop (1 + 2 > 2). -/
theorem assign_failure_condition_witness :
    (handleDropToRoom
        ⟨[⟨"1", "Rajesh Kumar", 1⟩, scn1Guest],
          [⟨"r1", "The Grand Palace", "Deluxe Room", 2, []⟩]⟩
        ⟨"1", "Rajesh Kumar", 1⟩ Source.unassigned "r1" =
      some ⟨scn1State, none⟩) ∧
    ((occupancySum (⟨"r1", "The Grand Palace", "Deluxe Room", 2,
          [⟨"1", "Rajesh Kumar", 1⟩]⟩ : Room).assigned + scn1Guest.occupancy >
        (2 : Nat) →
      handleDropToRoom scn1State scn1Guest Source.unassigned "r1" =
        some ⟨scn1State, some ⟨scn1Guest.name, "Deluxe Room", 2⟩⟩) ∧
     (occupancySum (⟨"r1", "The Grand Palace", "Deluxe Room", 2,
          [⟨"1", "Rajesh Kumar", 1⟩]⟩ : Room).assigned + scn1Guest.occupancy ≤
        (2 : Nat) →
      ∃ s2, handleDropToRoom scn1State scn1Guest Source.unassigned "r1" =
        some ⟨s2, none⟩)) :=
  ⟨by decide,
   assign_failure_condition scn1State scn1Guest Source.unassigned "r1" 0
     ⟨"r1", "The Grand Palace", "Deluxe Room", 2, [⟨"1", "Rajesh Kumar", 1⟩]⟩
     (by decide) (by decide)⟩

theorem occupancySum_filter_of_unique (g : Guest) (gs : List Guest)
    (hg : g ∈ gs) (hcount : gs.countP (fun x => x.id == g.id) = 1) :
    occupancySum (gs.filter (fun x => x.id != g.id)) + g.occupancy =
      occupancySum gs := by
  induction gs with
  | nil => cases hg
  | cons x xs ih =>
    rw [List.countP_cons] at hcount
    by_cases hx : (x.id == g.id) = true
    · rw [if_pos hx] at hcount
      have hzero : xs.countP (fun x => x.id == g.id) = 0 := by omega
      have hxs : ∀ y ∈ xs, ¬ ((y.id == g.id) = true) :=
        List.countP_eq_zero.mp hzero
      have hgx : g = x := by
        rcases List.mem_cons.mp hg with h | h
        · exact h
        · exact absurd (by simp) (hxs g h)
      have hfx : xs.filter (fun y => y.id != g.id) = xs := by
        rw [List.filter_eq_self]
        intro y hy
        simpa using hxs y hy
      rw [List.filter_cons, if_neg (by simpa using hx), hfx, occupancySum_cons, hgx]
      omega
    · rw [if_neg hx] at hcount
      have hgxs : g ∈ xs := by
        rcases List.mem_cons.mp hg with h | h
        · exact absurd (by simp [h]) hx
        · exact h
      have := ih hgxs (by omega)
      rw [List.filter_cons, if_pos (by simpa using hx), occupancySum_cons,
        occupancySum_cons]
      omega

/-- C6: `handleDropToUnassigned` always succeeds.  When the dragged guest
resides (exactly once, by id) in the room at index `i`, whose id is the
recorded source, the guest is appended to the unassigned pool, that
room's assigned list is filtered of the guest's id (so it no longer
contains the guest) and its occupancy sum drops by exactly the guest's
occupancy; when the source is already the unassigned pool, the call is
the identity on the state. -/
theorem unassign_spec (s : EngineState) (g : Guest) (rid : String) (i : Nat)
    (r : Room) (hi : s.rooms[i]? = some r) (hid : r.id = rid)
    (hg : g ∈ r.assigned)
    (hcount : r.assigned.countP (fun x => x.id == g.id) = 1) :
    (handleDropToUnassigned s g (Source.room rid)).unassignedGuests =
      s.unassignedGuests ++ [g] ∧
    (handleDropToUnassigned s g (Source.room rid)).rooms[i]? =
      some { r with assigned := r.assigned.filter (fun x => x.id != g.id) } ∧
    g ∉ r.assigned.filter (fun x => x.id != g.id) ∧
    occupancySum (r.assigned.filter (fun x => x.id != g.id)) + g.occupancy =
      occupancySum r.assigned ∧
    handleDropToUnassigned s g Source.unassigned = s := by
  refine ⟨rfl, ?_, ?_, occupancySum_filter_of_unique g r.assigned hg hcount, rfl⟩
  · show (s.rooms.map _)[i]? = _
    rw [List.getElem?_map, hi]
    subst hid
    simp
  · simp [List.mem_filter]

/-- Witness for `unassign_spec`: the occupancy sum of the filtered room
drops by exactly the guest's occupancy. -/
theorem unassign_spec_witness :
    occupancySum (unWRoom.assigned.filter (fun x => x.id != unWGuest.id)) +
      unWGuest.occupancy = occupancySum unWRoom.assigned :=
  (unassign_spec unWState unWGuest "r1" 0 unWRoom (by decide) rfl (by decide)
    (by decide)).2.2.2.1

/-- C8: `handleReset` is idempotent — a second reset changes nothing. -/
theorem reset_idempotent (s : EngineState) :
    handleReset (handleReset s) = handleReset s := by
  unfold handleReset
  congr 1
  · rw [foldl_append_assigned, foldl_append_assigned]
    simp [List.map_map, Function.comp]
  · simp [List.map_map, Function.comp]

theorem set_self_of_getElem? {α : Type} (l : List α) (i : Nat) (a : α)
    (h : l[i]? = some a) : l.set i a = l := by
  induction l generalizing i with
  | nil => simp at h
  | cons x xs ih =>
    cases i with
    | zero =>
      simp only [List.getElem?_cons_zero, Option.some.injEq] at h
      simp [h]
    | succ n =>
      simp only [List.getElem?_cons_succ] at h
      simp [ih n h]

theorem occupancySum_fitGuests_le (gs : List Guest) : ∀ space : Nat,
    occupancySum (fitGuests space gs).2.1 ≤ space := by
  induction gs with
  | nil => intro space; simp [fitGuests, occupancySum]
  | cons g gs ih =>
    intro space
    by_cases h : g.occupancy ≤ space
    · simp only [fitGuests, if_pos h]
      rw [occupancySum_cons]
      have := ih (space - g.occupancy)
      omega
    · simp only [fitGuests, if_neg h]
      exact ih space

theorem autoAssignRoom_cap (room : Room) (remaining : List Guest)
    (h : occupancySum room.assigned ≤ room.capacity) :
    occupancySum (autoAssignRoom room remaining).1.assigned ≤
      (autoAssignRoom room remaining).1.capacity := by
  unfold autoAssignRoom
  by_cases hs : room.capacity - occupancySum room.assigned > 0
  · rw [if_pos hs]
    by_cases hl :
        (fitGuests (room.capacity - occupancySum room.assigned) remaining).2.1.length > 0
    · simp only [if_pos hl]
      show occupancySum (room.assigned ++ _) ≤ room.capacity
      rw [occupancySum_append]
      have := occupancySum_fitGuests_le remaining
        (room.capacity - occupancySum room.assigned)
      omega
    · simp only [if_neg hl]
      exact h
  · rw [if_neg hs]
    exact h

theorem autoAssignRooms_capInv (rooms : List Room) : ∀ remaining : List Guest,
    (∀ r ∈ rooms, occupancySum r.assigned ≤ r.capacity) →
      ∀ r ∈ (autoAssignRooms rooms remaining).1,
        occupancySum r.assigned ≤ r.capacity := by
  induction rooms with
  | nil => intro remaining _ r hr; simp [autoAssignRooms] at hr
  | cons room rs ih =>
    intro remaining hInv r hr
    simp only [autoAssignRooms, List.mem_cons] at hr
    rcases hr with rfl | hr
    · exact autoAssignRoom_cap room remaining (hInv room (by simp))
    · exact ih (autoAssignRoom room remaining).2
        (fun x hx => hInv x (by simp [hx])) r hr

theorem handleAutoAssign_capInv (s : EngineState) (h : CapInv s) :
    CapInv (handleAutoAssign s) :=
  autoAssignRooms_capInv s.rooms s.unassignedGuests h

theorem handleDropToUnassigned_capInv (s : EngineState) (g : Guest) (src : Source)
    (h : CapInv s) : CapInv (handleDropToUnassigned s g src) := by
  cases src with
  | unassigned => exact h
  | room sid =>
    intro r hr
    simp only [handleDropToUnassigned, List.mem_map] at hr
    obtain ⟨r0, hr0, rfl⟩ := hr
    by_cases hid : (r0.id == sid) = true
    · rw [if_pos hid]
      calc occupancySum (r0.assigned.filter (fun g2 => g2.id != g.id)) ≤
            occupancySum r0.assigned := occupancySum_filter_le _ _
        _ ≤ r0.capacity := h r0 hr0
    · rw [if_neg hid]
      exact h r0 hr0

theorem handleReset_capInv (s : EngineState) : CapInv (handleReset s) := by
  intro r hr
  simp only [handleReset, List.mem_map] at hr
  obtain ⟨r0, _, rfl⟩ := hr
  exact Nat.zero_le _

theorem mem_roomsAfterSourceRemoval (rooms : List Room) (g : Guest) (src : Source)
    (r : Room) (h : r ∈ roomsAfterSourceRemoval rooms g src) :
    r ∈ rooms ∨ ∃ r0 ∈ rooms,
      r = { r0 with assigned := r0.assigned.filter (fun x => x.id != g.id) } := by
  unfold roomsAfterSourceRemoval at h
  split at h
  · exact Or.inl h
  · split at h
    · exact Or.inl h
    · split at h
      · exact Or.inl h
      next sourceRoom hget =>
        rcases List.mem_or_eq_of_mem_set h with h1 | rfl
        · exact Or.inl h1
        · exact Or.inr ⟨sourceRoom, List.getElem?_mem hget, rfl⟩

theorem dropToRoom_capInv (s : EngineState) (g : Guest) (src : Source) (tgt : String)
    (res : DropResult) (hInv : CapInv s) (h : handleDropToRoom s g src tgt = some res) :
    CapInv res.state := by
  unfold handleDropToRoom at h
  split at h
  next => exact absurd h (by simp)
  next i hidx =>
    split at h
    next => exact absurd h (by simp)
    next targetRoom hget =>
      simp only [] at h
      split at h
      next hc =>
        obtain rfl := Option.some.inj h
        exact hInv
      next hc =>
        obtain rfl := Option.some.inj h
        intro r hr
        rcases List.mem_or_eq_of_mem_set hr with h1 | rfl
        · rcases mem_roomsAfterSourceRemoval s.rooms g src r h1 with h2 | ⟨r0, hr0, rfl⟩
          · exact hInv r h2
          · calc occupancySum (r0.assigned.filter (fun x => x.id != g.id)) ≤
                  occupancySum r0.assigned := occupancySum_filter_le _ _
              _ ≤ r0.capacity := hInv r0 hr0
        · show occupancySum (targetRoom.assigned ++ [g]) ≤ targetRoom.capacity
          rw [occupancySum_append]
          have hone : occupancySum [g] = g.occupancy := by
            simp [occupancySum_eq_sum]
          rw [hone]
          omega

theorem dropToRoom_warned_state_eq (s : EngineState) (g : Guest) (src : Source)
    (tgt : String) (res : DropResult) (h : handleDropToRoom s g src tgt = some res)
    (hw : res.warning.isSome) : res.state = s := by
  unfold handleDropToRoom at h
  split at h
  next => exact absurd h (by simp)
  next =>
    split at h
    next => exact absurd h (by simp)
    next =>
      simp only [] at h
      split at h
      next =>
        obtain rfl := Option.some.inj h
        rfl
      next =>
        obtain rfl := Option.some.inj h
        exact absurd hw (by simp)

theorem applyOp_capInv (s : EngineState) (op : Op) (s2 : EngineState)
    (hInv : CapInv s) (h : applyOp s op = some s2) : CapInv s2 := by
  cases op with
  | assign g src tgt =>
    simp only [applyOp, Option.map_eq_some'] at h
    obtain ⟨res, hres, rfl⟩ := h
    exact dropToRoom_capInv s g src tgt res hInv hres
  | unassign g src =>
    obtain rfl := Option.some.inj h
    exact handleDropToUnassigned_capInv s g src hInv
  | autoAssign =>
    obtain rfl := Option.some.inj h
    exact handleAutoAssign_capInv s hInv
  | reset =>
    obtain rfl := Option.some.inj h
    exact handleReset_capInv s

theorem runOps_capInv (ops : List Op) : ∀ s s2 : EngineState,
    CapInv s → runOps s ops = some s2 → CapInv s2 := by
  induction ops with
  | nil =>
    intro s s2 h hr
    obtain rfl := Option.some.inj hr
    exact h
  | cons op ops ih =>
    intro s s2 h hr
    unfold runOps at hr
    split at hr
    next s3 happ => exact ih s3 s2 (applyOp_capInv s op s3 h happ) hr
    next => exact absurd hr (by simp)

/-- C2: from any state satisfying the capacity invariant, every sequence
of engine operations keeps every room within capacity after each call,
and an assign that raises the capacity warning is rejected (state
unchanged) rather than clamped. -/
theorem capacity_invariant_preserved (s : EngineState) (hInv : CapInv s) :
    (∀ (ops : List Op) (s2 : EngineState), runOps s ops = some s2 → CapInv s2) ∧
    (∀ (g : Guest) (src : Source) (tgt : String) (res : DropResult),
      handleDropToRoom s g src tgt = some res → res.warning.isSome →
        res.state = s) :=
  ⟨fun ops s2 h => runOps_capInv ops s s2 hInv h,
   fun g src tgt res h hw => dropToRoom_warned_state_eq s g src tgt res h hw⟩

/-- Witness for `capacity_invariant_preserved`: running auto-assign and
then reset from Scenario 2's state keeps every room within capacity. -/
theorem capacity_invariant_preserved_witness :
    CapInv ⟨[guestC, guestA, guestB],
      [⟨"r1", "The Grand Palace", "R1", 2, []⟩,
        ⟨"r2", "The Grand Palace", "R2", 3, []⟩]⟩ :=
  (capacity_invariant_preserved scn2State (by decide)).1
    [Op.autoAssign, Op.reset]
    ⟨[guestC, guestA, guestB],
      [⟨"r1", "The Grand Palace", "R1", 2, []⟩,
        ⟨"r2", "The Grand Palace", "R2", 3, []⟩]⟩
    (by decide)

theorem map_roomFrame_sourceRemoval (rooms : List Room) (g : Guest) (src : Source) :
    (roomsAfterSourceRemoval rooms g src).map roomFrame = rooms.map roomFrame := by
  unfold roomsAfterSourceRemoval
  split
  · rfl
  · split
    · rfl
    · split
      · rfl
      next i hidx sourceRoom hget =>
        rw [List.map_set]
        exact set_self_of_getElem? _ _ _ (by rw [List.getElem?_map, hget]; rfl)

theorem dropToRoom_frame (s : EngineState) (g : Guest) (src : Source) (tgt : String)
    (res : DropResult) (h : handleDropToRoom s g src tgt = some res) :
    res.state.rooms.map roomFrame = s.rooms.map roomFrame := by
  unfold handleDropToRoom at h
  split at h
  next => exact absurd h (by simp)
  next i hidx =>
    split at h
    next => exact absurd h (by simp)
    next targetRoom hget =>
      simp only [] at h
      split at h
      next =>
        obtain rfl := Option.some.inj h
        rfl
      next =>
        obtain rfl := Option.some.inj h
        show ((roomsAfterSourceRemoval s.rooms g src).set i _).map roomFrame = _
        rw [List.map_set, map_roomFrame_sourceRemoval]
        exact set_self_of_getElem? _ _ _ (by rw [List.getElem?_map, hget]; rfl)

theorem dropToUnassigned_frame (s : EngineState) (g : Guest) (src : Source) :
    (handleDropToUnassigned s g src).rooms.map roomFrame = s.rooms.map roomFrame := by
  cases src with
  | unassigned => rfl
  | room sid =>
    show (s.rooms.map _).map roomFrame = _
    rw [List.map_map]
    refine List.map_congr_left (fun r _ => ?_)
    by_cases hid : (r.id == sid) = true
    · simp only [Function.comp, if_pos hid]
      rfl
    · simp only [Function.comp, if_neg hid]

theorem autoAssignRoom_frame (room : Room) (remaining : List Guest) :
    roomFrame (autoAssignRoom room remaining).1 = roomFrame room := by
  unfold autoAssignRoom
  dsimp only
  split
  · split <;> rfl
  · rfl

theorem autoAssignRooms_frame (rooms : List Room) : ∀ remaining : List Guest,
    (autoAssignRooms rooms remaining).1.map roomFrame = rooms.map roomFrame := by
  induction rooms with
  | nil => intro remaining; rfl
  | cons room rs ih =>
    intro remaining
    show roomFrame (autoAssignRoom room remaining).1 :: _ = _
    rw [autoAssignRoom_frame, ih]
    rfl

theorem reset_frame (s : EngineState) :
    (handleReset s).rooms.map roomFrame = s.rooms.map roomFrame := by
  show (s.rooms.map _).map roomFrame = _
  rw [List.map_map]
  exact List.map_congr_left (fun r _ => rfl)

/-- C10: every operation leaves the rooms list's length and order and
every room's id, hotel, type and capacity unchanged — the image of the
rooms under `roomFrame` (everything but the assigned list) is invariant;
the operations only touch the assigned lists and the unassigned pool. -/
theorem ops_frame_preservation (s : EngineState) :
    (∀ (g : Guest) (src : Source) (tgt : String) (res : DropResult),
      handleDropToRoom s g src tgt = some res →
        res.state.rooms.map roomFrame = s.rooms.map roomFrame) ∧
    (∀ (g : Guest) (src : Source),
      (handleDropToUnassigned s g src).rooms.map roomFrame = s.rooms.map roomFrame) ∧
    (handleAutoAssign s).rooms.map roomFrame = s.rooms.map roomFrame ∧
    (handleReset s).rooms.map roomFrame = s.rooms.map roomFrame :=
  ⟨fun g src tgt res h => dropToRoom_frame s g src tgt res h,
   fun g src => dropToUnassigned_frame s g src,
   autoAssignRooms_frame s.rooms s.unassignedGuests,
   reset_frame s⟩

/-- Witness for `ops_frame_preservation`: the successful drop of guest A
into R1 from Scenario 2's pool keeps every room frame. -/
theorem ops_frame_preservation_witness :
    (DropResult.mk
        ⟨[guestB, guestC],
          [⟨"r1", "The Grand Palace", "R1", 2, [guestA]⟩,
            ⟨"r2", "The Grand Palace", "R2", 3, []⟩]⟩ none).state.rooms.map roomFrame =
      scn2State.rooms.map roomFrame :=
  (ops_frame_preservation scn2State).1 guestA Source.unassigned "r1"
    (DropResult.mk
      ⟨[guestB, guestC],
        [⟨"r1", "The Grand Palace", "R1", 2, [guestA]⟩,
          ⟨"r2", "The Grand Palace", "R2", 3, []⟩]⟩ none)
    (by decide)

theorem foldl_specFitStep (gs : List Guest) : ∀ (space : Nat) (added carried : List Guest),
    gs.foldl specFitStep (space, added, carried) =
      ((fitGuests space gs).1, added ++ (fitGuests space gs).2.1,
        carried ++ (fitGuests space gs).2.2) := by
  induction gs with
  | nil => intro space added carried; simp [fitGuests]
  | cons g gs ih =>
    intro space added carried
    by_cases h : g.occupancy ≤ space
    · rw [List.foldl_cons,
        show specFitStep (space, added, carried) g =
          (space - g.occupancy, added ++ [g], carried) from by simp [specFitStep, h],
        ih]
      simp [fitGuests, h]
    · rw [List.foldl_cons,
        show specFitStep (space, added, carried) g =
          (space, added, carried ++ [g]) from by simp [specFitStep, h],
        ih]
      simp [fitGuests, h]

theorem fitGuests_zero (gs : List Guest) (h : ∀ g ∈ gs, 0 < g.occupancy) :
    fitGuests 0 gs = (0, [], gs) := by
  induction gs with
  | nil => rfl
  | cons g gs ih =>
    have hg := h g (by simp)
    rw [show fitGuests 0 (g :: gs) =
        ((fitGuests 0 gs).1, (fitGuests 0 gs).2.1, g :: (fitGuests 0 gs).2.2) from by
      simp [fitGuests, Nat.not_le.mpr hg]]
    rw [ih (fun x hx => h x (by simp [hx]))]

theorem fitGuests_rest_subset (gs : List Guest) : ∀ (space : Nat) (g : Guest),
    g ∈ (fitGuests space gs).2.2 → g ∈ gs := by
  induction gs with
  | nil => intro space g hg; simp [fitGuests] at hg
  | cons x xs ih =>
    intro space g hg
    by_cases h : x.occupancy ≤ space
    · simp only [fitGuests, if_pos h] at hg
      exact List.mem_cons_of_mem x (ih _ g hg)
    · simp only [fitGuests, if_neg h, List.mem_cons] at hg
      rcases hg with rfl | hg
      · exact List.mem_cons_self g xs
      · exact List.mem_cons_of_mem x (ih _ g hg)

theorem autoAssignRoom_rest_subset (room : Room) (remaining : List Guest)
    (g : Guest) (hg : g ∈ (autoAssignRoom room remaining).2) : g ∈ remaining := by
  unfold autoAssignRoom at hg
  dsimp only at hg
  by_cases hs : room.capacity - occupancySum room.assigned > 0
  · rw [if_pos hs] at hg
    exact fitGuests_rest_subset remaining _ g hg
  · rw [if_neg hs] at hg
    exact hg

theorem specRoomStep_eq (room : Room) (remaining : List Guest) (done : List Room)
    (h : ∀ g ∈ remaining, 0 < g.occupancy) :
    specRoomStep (done, remaining) room =
      (done ++ [(autoAssignRoom room remaining).1], (autoAssignRoom room remaining).2) := by
  unfold specRoomStep autoAssignRoom
  dsimp only
  rw [foldl_specFitStep remaining (room.capacity - occupancySum room.assigned) [] []]
  by_cases hs : room.capacity - occupancySum room.assigned > 0
  · rw [if_pos hs]
    by_cases hl :
        (fitGuests (room.capacity - occupancySum room.assigned) remaining).2.1.length > 0
    · simp [if_pos hl]
    · have hnil :
          (fitGuests (room.capacity - occupancySum room.assigned) remaining).2.1 = [] :=
        List.length_eq_zero.mp (by omega)
      simp [if_neg hl, hnil]
  · rw [if_neg hs]
    have hz : room.capacity - occupancySum room.assigned = 0 := by omega
    rw [hz, fitGuests_zero remaining h]
    simp

theorem foldl_specRoomStep (rooms : List Room) : ∀ (remaining : List Guest) (done : List Room),
    (∀ g ∈ remaining, 0 < g.occupancy) →
      rooms.foldl specRoomStep (done, remaining) =
        (done ++ (autoAssignRooms rooms remaining).1,
          (autoAssignRooms rooms remaining).2) := by
  induction rooms with
  | nil => intro remaining done h; simp [autoAssignRooms]
  | cons room rs ih =>
    intro remaining done h
    rw [List.foldl_cons, specRoomStep_eq room remaining done h]
    rw [ih (autoAssignRoom room remaining).2 _
      (fun g hg => h g (autoAssignRoom_rest_subset room remaining g hg))]
    simp [autoAssignRooms]

theorem handleAutoAssign_eq_spec (s : EngineState)
    (h : ∀ g ∈ s.unassignedGuests, 0 < g.occupancy) :
    handleAutoAssign s = specAutoAssign s := by
  unfold handleAutoAssign specAutoAssign
  dsimp only
  rw [foldl_specRoomStep s.rooms s.unassignedGuests [] h]
  simp

/-- C3: whenever every unassigned guest has positive occupancy (the data
model requires occupancy to be a positive integer), `handleAutoAssign`
coincides with the spec's single-pass first-fit-in-order description
`specAutoAssign` (rooms visited exactly once in order, guests scanned in
order against the shrinking `roomSpace`, non-fitting guests carried
forward); and on Scenario 2's input the result is R1 = [A], R2 = [B],
unassigned = [C]. -/
theorem autoAssign_first_fit :
    (∀ s : EngineState, (∀ g ∈ s.unassignedGuests, 0 < g.occupancy) →
      handleAutoAssign s = specAutoAssign s) ∧
    handleAutoAssign scn2State = scn2Result :=
  ⟨handleAutoAssign_eq_spec, by decide⟩

/-- Witness for `autoAssign_first_fit` at Scenario 2's state. -/
theorem autoAssign_first_fit_witness :
    handleAutoAssign scn2State = specAutoAssign scn2State :=
  autoAssign_first_fit.1 scn2State (by decide)

theorem insertGrouped_inv (processed : List GGuest)
    (acc : List (String × List GGuest)) (g : GGuest) (h : GroupInv processed acc) :
    GroupInv (processed ++ [g]) (insertGrouped acc g) := by
  obtain ⟨h1, h2, h3, h4⟩ := h
  unfold insertGrouped
  by_cases hmem : acc.any (fun p => p.1 == guestKey g) = true
  · rw [if_pos hmem]
    have hfst : (acc.map fun p =>
        if p.1 == guestKey g then (p.1, p.2 ++ [g]) else p).map Prod.fst =
          acc.map Prod.fst := by
      rw [List.map_map]
      refine List.map_congr_left (fun p _ => ?_)
      by_cases hp : (p.1 == guestKey g) = true
      · simp [Function.comp, hp]
      · simp [Function.comp, hp]
    refine ⟨by rw [hfst]; exact h1, ?_, ?_, ?_⟩
    · intro p' hp'
      simp only [List.mem_map] at hp'
      obtain ⟨p, hp, rfl⟩ := hp'
      by_cases hpk : (p.1 == guestKey g) = true
      · rw [if_pos hpk]
        show p.2 ++ [g] = _
        rw [List.filter_append, ← h2 p hp]
        have : (guestKey g == p.1) = true := by
          rw [beq_iff_eq] at hpk ⊢
          exact hpk.symm
        simp [this]
      · rw [if_neg hpk]
        rw [h2 p hp, List.filter_append]
        have : (guestKey g == p.1) = false := by
          rw [beq_eq_false_iff_ne]
          simp only [beq_iff_eq] at hpk
          exact fun hgp => hpk hgp.symm
        simp [this]
    · intro x hx
      rw [hfst]
      rcases List.mem_append.mp hx with hx | hx
      · exact h3 x hx
      · obtain rfl := List.mem_singleton.mp hx
        obtain ⟨p, hp, hpk⟩ := List.any_eq_true.mp hmem
        rw [beq_iff_eq] at hpk
        rw [← hpk]
        exact List.mem_map_of_mem Prod.fst hp
    · intro p' hp'
      simp only [List.mem_map] at hp'
      obtain ⟨p, hp, rfl⟩ := hp'
      by_cases hpk : (p.1 == guestKey g) = true
      · rw [if_pos hpk]
        simp
      · rw [if_neg hpk]
        exact h4 p hp
  · rw [if_neg hmem]
    have hnotin : guestKey g ∉ acc.map Prod.fst := by
      intro hk
      obtain ⟨p, hp, hpk⟩ := List.mem_map.mp hk
      exact hmem (List.any_eq_true.mpr ⟨p, hp, by rw [beq_iff_eq]; exact hpk⟩)
    refine ⟨?_, ?_, ?_, ?_⟩
    · rw [List.map_append]
      rw [List.nodup_append]
      exact ⟨h1, List.nodup_singleton _, fun a ha hb => by
        obtain rfl := List.mem_singleton.mp hb
        exact hnotin ha⟩
    · intro p hp
      rcases List.mem_append.mp hp with hp | hp
      · rw [h2 p hp, List.filter_append]
        have : (guestKey g == p.1) = false := by
          rw [beq_eq_false_iff_ne]
          intro hgp
          exact hnotin (hgp ▸ List.mem_map_of_mem Prod.fst hp)
        simp [this]
      · obtain rfl := List.mem_singleton.mp hp
        show [g] = _
        rw [List.filter_append]
        have hnilf : processed.filter (fun x => guestKey x == guestKey g) = [] := by
          rw [List.filter_eq_nil_iff]
          intro x hx
          intro hxe
          rw [beq_iff_eq] at hxe
          exact hnotin (hxe ▸ h3 x hx)
        rw [hnilf]
        simp
    · intro x hx
      rw [List.map_append]
      rcases List.mem_append.mp hx with hx | hx
      · exact List.mem_append_left _ (h3 x hx)
      · obtain rfl := List.mem_singleton.mp hx
        exact List.mem_append_right _ (by simp)
    · intro p hp
      rcases List.mem_append.mp hp with hp | hp
      · exact h4 p hp
      · obtain rfl := List.mem_singleton.mp hp
        simp

theorem groupedGuests_inv_aux (rest : List GGuest) :
    ∀ (processed : List GGuest) (acc : List (String × List GGuest)),
      GroupInv processed acc →
        GroupInv (processed ++ rest) (rest.foldl insertGrouped acc) := by
  induction rest with
  | nil => intro processed acc h; simpa using h
  | cons g gs ih =>
    intro processed acc h
    have h3 := ih (processed ++ [g]) (insertGrouped acc g)
      (insertGrouped_inv processed acc g h)
    simpa using h3

theorem groupedGuests_inv (guests : List GGuest) :
    GroupInv guests (groupedGuests guests) := by
  have h0 : GroupInv [] [] := by
    refine ⟨List.nodup_nil, ?_, ?_, ?_⟩ <;> simp
  simpa using groupedGuests_inv_aux guests [] [] h0

/-- C9: the guest-management view partitions the fetched guests into
groups keyed by `FamilyID || ID`: group keys are pairwise distinct, each
group is exactly the fetched guests bearing its key in fetch order (so
each guest lands in exactly one group), every guest's key has a group,
and each rendered group splits into a head row (its first member) and the
remaining members as detail rows. -/
theorem guest_grouping_spec (guests : List GGuest) :
    ((groupedGuests guests).map Prod.fst).Nodup ∧
    (∀ p ∈ groupedGuests guests, p.2 = guests.filter (fun g => guestKey g == p.1)) ∧
    (∀ g ∈ guests, guestKey g ∈ (groupedGuests guests).map Prod.fst) ∧
    (∀ grp ∈ guestGroups guests,
      ∃ h, headGuest grp = some h ∧ grp = h :: otherMembers grp) := by
  obtain ⟨h1, h2, h3, h4⟩ := groupedGuests_inv guests
  refine ⟨h1, h2, h3, ?_⟩
  intro grp hgrp
  simp only [guestGroups, List.mem_map] at hgrp
  obtain ⟨p, hp, rfl⟩ := hgrp
  have hne := h4 p hp
  cases hgl : p.2 with
  | nil => exact absurd hgl hne
  | cons x xs => exact ⟨x, by simp [headGuest, hgl], by simp [otherMembers, hgl]⟩

/-- Witness for `guest_grouping_spec`: the family-"F" group holds exactly
the "F" guests in fetch order. -/
theorem guest_grouping_spec_witness :
    (("F", [famGuest "1" "F", famGuest "3" "F"]) :
        String × List GGuest).2 =
      c9Guests.filter (fun g =>
        guestKey g == (("F", [famGuest "1" "F", famGuest "3" "F"]) :
          String × List GGuest).1) :=
  (guest_grouping_spec c9Guests).2.1
    ("F", [famGuest "1" "F", famGuest "3" "F"]) (by decide)
